import Mathlib
/-!
Verification of the SignalDB Tauri filesystem persistence adapter
(`src/index.ts`).  The adapter stores an ordered collection of records
(each carrying an identity key `id`) as a single file, with optional
pluggable encryption, a data validator, an incremental change reconciler
with a full-save fallback, backup snapshots, and a change-notification
callback that receives a deep copy of the written collection.

Shallow embedding conventions:
* records are `Rec` values with a `Nat` identity key and a `Nat` payload;
* file bytes are `List Nat`; the JSON text of a collection is modelled by
  an injective executable codec `jsonEncode` / `jsonParseV` (tag 91 = `'['`
  opens an array document, tag 123 a parseable non-array document,
  anything else fails to parse);
* a decoded JSON document is a `JsonVal`: either an array of records or a
  non-array value (`JsonVal.nonArr` stands for a truthy, non-iterable
  JavaScript value such as an object or a number);
* thrown JavaScript exceptions become `Except String`/dedicated error
  inductives; `console.warn` advisories are non-fatal and not part of the
  observable result, matching the source where they never change control
  flow.
-/

/-- A stored record: an identity key plus opaque payload
(`T extends { id: ID }` in the source, with `ID` instantiated at `Nat`). -/
structure Rec where
  id : Nat
  val : Nat
deriving DecidableEq, Repr
/-- A decoded JSON document, as produced by `JSON.parse` or a `decrypt`
capability: an array of records, or some non-array value. -/
inductive JsonVal where
  | arr (l : List Rec)
  | nonArr
deriving DecidableEq, Repr
/-- Source `defaultDataValidator` (src/index.ts:42-44): `Array.isArray(data)`. -/
def defaultDataValidator : JsonVal → Bool
  | .arr _ => true
  | .nonArr => false
/-- File bytes. -/
abbrev Bytes := List Nat
/-- Byte encoding of a record list (the body of a JSON array document). -/
def encodeRecs : List Rec → Bytes
  | [] => []
  | r :: rs => r.id :: r.val :: encodeRecs rs
/-- Model of `JSON.stringify` on a record collection: an array document, tagged with
byte 91 (`'['`). -/
def jsonEncode (l : List Rec) : Bytes := 91 :: encodeRecs l
/-- Inverse of `encodeRecs`; fails on odd-length bodies. -/
def decodeRecs : Bytes → Option (List Rec)
  | [] => some []
  | _ :: [] => none
  | i :: v :: rest => (decodeRecs rest).map (⟨i, v⟩ :: ·)
/-- Model of `JSON.parse`: byte 91 opens an array document, the single byte 123 is a
parseable non-array document, anything else is a parse error (`none`). -/
def jsonParseV : Bytes → Option JsonVal
  | 91 :: rest => (decodeRecs rest).map .arr
  | [123] => some .nonArr
  | _ => none
/-- Source `SecurityOptions` merged with the defaults of src/index.ts:81-88. -/
structure Security where
  enforceEncryption : Bool := false
  allowPlaintextFallback : Bool := false
  validateDecryptedData : Bool := true
  propagateCallbackErrors : Bool := false
  dataValidator : JsonVal → Bool := defaultDataValidator
/-- Adapter configuration: optional encrypt/decrypt capabilities (which may
throw, modelled by `Except String`) and the merged security options. -/
structure Opts where
  encrypt? : Option (List Rec → Except String Bytes) := none
  decrypt? : Option (Bytes → Except String JsonVal) := none
  security : Security := {}
/-- Errors that `load` can surface (src/index.ts:144-237).  Message text is
abstracted to a tag; the original cause is kept where the source attaches
one with `{ cause }`. -/
inductive LoadErr where
  | decryptionFailed (cause : String)
  | fallbackParseFailed (cause : String)
  | dataValidationFailed
deriving DecidableEq, Repr
/-- Source `load` (src/index.ts:144-237).  `file = none` models an unreadable or
missing file (`readFile` throws, line 150-153); `some []` models blank
content (`!text_content.trim()`, line 157).

With a decrypt capability, decryption *and* the validation of its result
both sit inside one `try` whose `catch (decryptError)` drives the
plaintext-fallback policy (lines 161-205): a primary-path validation
failure is handled exactly like a decryption failure.  Without a decrypt
capability, a parse failure degrades to an empty collection while a
validation failure propagates (lines 206-223). -/
def loadM (opts : Opts) (file : Option Bytes) : Except LoadErr JsonVal :=
  match file with
  | none => .ok (.arr [])
  | some bytes =>
    if bytes = [] then .ok (.arr [])
    else
      let sec := opts.security
      match opts.decrypt? with
      | some decrypt =>
        -- primary path: decrypt, then validate the decrypted structure
        let primary : Except String JsonVal :=
          match decrypt bytes with
          | .error m => .error m
          | .ok v =>
            if sec.validateDecryptedData && !(sec.dataValidator v) then
              .error "Decrypted data failed validation - possible data corruption or tampering"
            else .ok v
        match primary with
        | .ok v => .ok v
        | .error decryptError =>
          if !sec.allowPlaintextFallback then
            .error (.decryptionFailed decryptError)
          else
            -- plaintext fallback: parse the raw bytes, validate even fallback data
            match jsonParseV bytes with
            | some v =>
              if sec.validateDecryptedData && !(sec.dataValidator v) then
                .error (.fallbackParseFailed "Fallback plaintext data failed validation")
              else .ok v
            | none => .error (.fallbackParseFailed "JSON parse error")
      | none =>
        match jsonParseV bytes with
        | some v =>
          if sec.validateDecryptedData && !(sec.dataValidator v) then
            .error .dataValidationFailed
          else .ok v
        | none => .ok (.arr [])  -- backwards compatibility with corrupted JSON (line 222)
/-- The change-set passed to `save(items, changes)`: three sequences of
records describing a delta. -/
structure Changes where
  added : List Rec := []
  modified : List Rec := []
  removed : List Rec := []
/-- Lookup in `new Map(changes.modified.map(item => [item.id, item]))`
(src/index.ts:275): a JavaScript `Map` built from an entry list keeps the
last entry for each key, so the lookup scans left to right and the last
match wins. -/
def jsMapGet (l : List Rec) (k : Nat) : Option Rec :=
  l.foldl (fun acc r => if r.id = k then some r else acc) none
/-- Incremental reconciliation (src/index.ts:264-284): remove records whose
id is in `changes.removed`, replace records whose id is in
`changes.modified`, append `changes.added`.  The `length > 0` guards of the
source are kept literally. -/
def applyChanges (current : List Rec) (changes : Changes) : List Rec :=
  let updated := current
  let updated :=
    if changes.removed.length > 0 then
      let removedIds := changes.removed.map Rec.id
      updated.filter (fun item => !(removedIds.contains item.id))
    else updated
  let updated :=
    if changes.modified.length > 0 then
      updated.map (fun item =>
        match jsMapGet changes.modified item.id with
        | some m => m
        | none => item)
    else updated
  if changes.added.length > 0 then updated ++ changes.added else updated
/-- The set of identity keys of a collection (`new Set(l.map(item => item.id))`,
src/index.ts:288-289). -/
def idFinset (l : List Rec) : Finset Nat := (l.map Rec.id).toFinset
/-- Integrity verification and full-save fallback (src/index.ts:286-295):
if the id sets of the incrementally built result and of the caller-supplied
`items` differ in size or membership, the caller's `items` are used
verbatim. -/
def reconcile (current : List Rec) (items : List Rec) (changes : Changes) : List Rec :=
  let updated := applyChanges current changes
  let expected := idFinset items
  let actual := idFinset updated
  if expected.card ≠ actual.card ∨ ¬ (expected ⊆ actual) then items else updated
/-- On-disk state driven by one adapter: the canonical file (`none` when
missing/unreadable) and the accumulated backup artifacts' contents.
Staging files are created and removed within one `save` and never survive
it, so they are not part of the persistent state. -/
structure St where
  canonical : Option Bytes := none
  backups : List Bytes := []
deriving DecidableEq, Repr
/-- Errors that `save` can surface. -/
inductive SaveErr where
  | saveFailed (cause : String)
deriving DecidableEq, Repr
/-- Source `save` (src/index.ts:239-397).  Returns the resulting on-disk state
together with either the written collection (also the value whose deep
copy is handed to the change callback) or the error.

Step by step against the source:
* lines 248-262: `this.load()`; on success `current_items` is the loaded
  value and a backup of the current canonical bytes is written whenever
  those bytes are readable; on a load error the backup block is skipped and
  `current_items := []`.  A successfully loaded non-array value (possible
  only with validation disabled) makes the later `[...current_items]`
  spread throw, which the outer catch wraps into a save failure.
* lines 264-295: `applyChanges` + verification fallback = `reconcile`.
* lines 297-307: encode via `encrypt` or `JSON.stringify`; an encrypt
  throw is fatal (`Failed to encrypt`), after the backup was already made.
* lines 309-374: staging write, verify, remove-old, final write, staging
  cleanup; with the write primitives succeeding the net effect is that the
  canonical file holds the encoded bytes and no staging file remains. -/
def saveM (opts : Opts) (st : St) (items : List Rec) (changes : Changes) :
    St × Except SaveErr (List Rec) :=
  match loadM opts st.canonical with
  | .ok (.arr current) =>
    -- backup of the current canonical bytes, only when they are readable
    let st1 : St :=
      match st.canonical with
      | some bytes => { st with backups := st.backups ++ [bytes] }
      | none => st
    let updated := reconcile current items changes
    let encoded : Except String Bytes :=
      match opts.encrypt? with
      | some encrypt => encrypt updated
      | none => .ok (jsonEncode updated)
    match encoded with
    | .error _ => (st1, .error (.saveFailed "Failed to encrypt data"))
    | .ok bytes => ({ st1 with canonical := some bytes }, .ok updated)
  | .ok .nonArr =>
    -- load succeeded, so the backup is still made before the spread throws
    let st1 : St :=
      match st.canonical with
      | some bytes => { st with backups := st.backups ++ [bytes] }
      | none => st
    (st1, .error (.saveFailed "Failed to save data"))
  | .error _ =>
    -- `console.warn('Could not load current data, starting with empty array')`
    let updated := reconcile [] items changes
    let encoded : Except String Bytes :=
      match opts.encrypt? with
      | some encrypt => encrypt updated
      | none => .ok (jsonEncode updated)
    match encoded with
    | .error _ => (st, .error (.saveFailed "Failed to encrypt data"))
    | .ok bytes => ({ st with canonical := some bytes }, .ok updated)
/-- Modelled from the spec's wording of §4.4, for refinement comparison with
`applyChanges`: "start from `previous`; remove every record whose identity
key appears in `changes.removed`; replace every remaining record whose
identity key appears in `changes.modified` with the modified version;
append every record in `changes.added`" (a later duplicate in `modified`
wins, matching `Map` construction). -/
def specReconcile (previous : List Rec) (changes : Changes) : List Rec :=
  ((previous.filter (fun r => !((changes.removed.map Rec.id).contains r.id))).map
    (fun r =>
      match changes.modified.reverse.find? (fun m => m.id = r.id) with
      | some m => m
      | none => r)) ++ changes.added
/-- Construction-time errors: `InvalidName` from `validateFilename`
(src/index.ts:18-37), `EncryptionRequired` from the enforcement check
(src/index.ts:99-104). -/
inductive CreateErr where
  | invalidName
  | encryptionRequired
deriving DecidableEq, Repr
/-- Source `validateFilename` (src/index.ts:18-37), on the filename's character
list.  The source's checks in order: empty/non-string, `'..'` / `'/'` /
`'\\'` (path traversal), NUL / LF / CR, length above 255.  All throws are
the `InvalidName` class. -/
def validateFilename (s : List Char) : Except CreateErr Unit :=
  if s = [] then .error .invalidName
  else if decide (['.', '.'] <:+: s) || s.contains '/' || s.contains '\\' then
    .error .invalidName
  else if s.contains '\x00' || s.contains '\n' || s.contains '\r' then
    .error .invalidName
  else if s.length > 255 then .error .invalidName
  else .ok ()
/-- Adapter construction (src/index.ts:73-108): `validateFilename` runs
first, before any I/O and before the security options are consulted; then
encryption enforcement may reject.  The model performs no filesystem
access at construction, matching the source, where I/O happens only in
`register`/`load`/`save`. -/
def createAdapter (name : List Char) (opts : Opts) : Except CreateErr Unit :=
  match validateFilename name with
  | .error e => .error e
  | .ok () =>
    if opts.security.enforceEncryption && (opts.encrypt?.isNone || opts.decrypt?.isNone) then
      .error .encryptionRequired
    else .ok ()
/-- The claim's characterization of an acceptable filename: non-empty, no
parent-directory segment marker, no forward or backward path separator, no
null byte, no carriage-return or line-feed, and at most 255 characters. -/
def goodName (s : List Char) : Prop :=
  s ≠ [] ∧ ¬ (['.', '.'] <:+: s) ∧ '/' ∉ s ∧ '\\' ∉ s ∧
    '\x00' ∉ s ∧ '\n' ∉ s ∧ '\r' ∉ s ∧ s.length ≤ 255
instance (s : List Char) : Decidable (goodName s) := by
  unfold goodName; infer_instance
/-- A heap of record objects addressed by naturals, modelling JavaScript
object identity for the callback-isolation property: the engine's live
`updated_items` array is a list of addresses into the heap. -/
abbrev Heap := Nat → Rec
/-- The fresh addresses handed out by `JSON.parse(JSON.stringify(...))`
when it rebuilds `len` records starting at allocation point `base`. -/
def deepCopyAddrs (base len : Nat) : List Nat := (List.range len).map (· + base)
/-- The heap after the deep copy: each fresh address `base + i` holds a copy
of the value at the `i`-th live address; every other address is untouched. -/
def deepCopyHeap (heap : Heap) (live : List Nat) (base : Nat) : Heap :=
  fun a =>
    if base ≤ a ∧ a < base + live.length then heap (live.getD (a - base) 0)
    else heap a
/-- The write + notify tail of `save` (src/index.ts:342 and 376-389).  The
canonical bytes are produced from the live values first (`writeFile`,
line 342); then the callback receives `JSON.parse(JSON.stringify(updated_items))`
— freshly allocated addresses holding copies of the written values
(line 380) — and may update the heap (`cb`) using the addresses it was
given.  Returns the written bytes, the heap after the callback, and the
addresses the callback received. -/
def saveNotify (heap : Heap) (live : List Nat) (base : Nat)
    (cb : Heap → List Nat → Heap) : Bytes × Heap × List Nat :=
  let written := jsonEncode (live.map heap)
  let copy := deepCopyAddrs base live.length
  let heap1 := deepCopyHeap heap live base
  (written, cb heap1 copy, copy)

theorem decodeRecs_encodeRecs (l : List Rec) : decodeRecs (encodeRecs l) = some l := by
  induction l with
  | nil => rfl
  | cons r rs ih => simp [encodeRecs, decodeRecs, ih]
theorem jsonParseV_jsonEncode (l : List Rec) : jsonParseV (jsonEncode l) = some (.arr l) := by
  simp [jsonEncode, jsonParseV, decodeRecs_encodeRecs]
theorem jsMapGet_eq (l : List Rec) (k : Nat) :
    jsMapGet l k = l.reverse.find? (fun m => m.id = k) := by
  suffices h : ∀ acc, l.foldl (fun acc r => if r.id = k then some r else acc) acc =
      (l.reverse.find? (fun m => m.id = k)).or acc by
    simpa [jsMapGet] using h none
  induction l with
  | nil => intro acc; simp
  | cons r rs ih =>
    intro acc
    simp only [List.foldl_cons, List.reverse_cons, List.find?_append, ih]
    cases hfind : rs.reverse.find? (fun m => m.id = k) <;>
      by_cases hr : r.id = k <;>
      simp [List.find?, hr]
theorem jsMapGet_some_id (l : List Rec) (k : Nat) (m : Rec) (h : jsMapGet l k = some m) :
    m.id = k := by
  rw [jsMapGet_eq] at h
  simpa using List.find?_some h
theorem applyChanges_eq_specReconcile (previous : List Rec) (changes : Changes) :
    applyChanges previous changes = specReconcile previous changes := by
  rcases changes with ⟨added, modified, removed⟩
  unfold applyChanges specReconcile
  simp only [jsMapGet_eq]
  by_cases hrm : removed = [] <;> by_cases hmd : modified = [] <;> by_cases had : added = [] <;>
    simp [hrm, hmd, had, List.length_pos]
theorem reconcile_eq_items (current items : List Rec) (changes : Changes)
    (h : idFinset items ≠ idFinset (applyChanges current changes)) :
    reconcile current items changes = items := by
  unfold reconcile
  rw [if_pos]
  by_contra hc
  push_neg at hc
  exact h (Finset.eq_of_subset_of_card_le hc.2 (le_of_eq hc.1.symm))
theorem reconcile_eq_apply (current items : List Rec) (changes : Changes)
    (h : idFinset items = idFinset (applyChanges current changes)) :
    reconcile current items changes = applyChanges current changes := by
  unfold reconcile
  rw [if_neg]
  push_neg
  exact ⟨by rw [h], by rw [h]⟩
theorem loadM_plain_jsonEncode (l : List Rec) :
    loadM {} (some (jsonEncode l)) = .ok (.arr l) := by
  have hne : jsonEncode l ≠ [] := by simp [jsonEncode]
  simp [loadM, hne, jsonParseV_jsonEncode, defaultDataValidator]

theorem validateFilename_ok_iff (s : List Char) :
    validateFilename s = .ok () ↔ goodName s := by
  unfold validateFilename goodName
  split_ifs with h1 h2 h3 h4 <;>
    simp_all [not_or, List.elem_iff, Nat.not_lt] <;> tauto

theorem validateFilename_cases (s : List Char) :
    validateFilename s = .ok () ∨ validateFilename s = .error .invalidName := by
  unfold validateFilename
  split_ifs <;> simp

theorem reconcile_self (S : List Rec) : reconcile [] S ⟨S, [], []⟩ = S := by
  have happ : applyChanges [] ⟨S, [], []⟩ = S := by
    unfold applyChanges
    cases S <;> simp
  rw [reconcile_eq_apply _ _ _ (by rw [happ]), happ]

theorem replaceBy_id (modified : List Rec) (r : Rec) :
    (match modified.reverse.find? (fun m : Rec => m.id = r.id) with
     | some m => m
     | none => r).id = r.id := by
  cases hf : modified.reverse.find? (fun m : Rec => m.id = r.id) with
  | none => rfl
  | some m => simpa using List.find?_some hf

theorem nodup_ids_specReconcile (current : List Rec) (changes : Changes)
    (hcur : (current.map Rec.id).Nodup)
    (hadd : (changes.added.map Rec.id).Nodup)
    (hdisj : ∀ r ∈ current, r.id ∉ changes.added.map Rec.id) :
    ((specReconcile current changes).map Rec.id).Nodup := by
  unfold specReconcile
  rw [List.map_append, List.nodup_append]
  set flt := current.filter (fun r => !((changes.removed.map Rec.id).contains r.id)) with hflt
  have hids :
      (flt.map (fun r =>
        match changes.modified.reverse.find? (fun m => m.id = r.id) with
        | some m => m
        | none => r)).map Rec.id = flt.map Rec.id := by
    rw [List.map_map]
    refine List.map_congr_left ?_
    intro r _
    show (match changes.modified.reverse.find? (fun m : Rec => m.id = r.id) with
          | some m => m
          | none => r).id = r.id
    exact replaceBy_id changes.modified r
  have hsub : (flt.map Rec.id).Sublist (current.map Rec.id) :=
    (List.filter_sublist current).map Rec.id
  refine ⟨?_, hadd, ?_⟩
  · rw [hids]
    exact hcur.sublist hsub
  · intro a ha
    rw [hids] at ha
    rcases List.mem_map.mp ha with ⟨r, hr, rfl⟩
    exact hdisj r (List.mem_of_mem_filter hr)

theorem nodup_ids_reconcile (current items : List Rec) (changes : Changes)
    (hcur : (current.map Rec.id).Nodup)
    (hitems : (items.map Rec.id).Nodup)
    (hadd : (changes.added.map Rec.id).Nodup)
    (hdisj : ∀ r ∈ current, r.id ∉ changes.added.map Rec.id) :
    ((reconcile current items changes).map Rec.id).Nodup := by
  by_cases h : idFinset items = idFinset (applyChanges current changes)
  · rw [reconcile_eq_apply _ _ _ h, applyChanges_eq_specReconcile]
    exact nodup_ids_specReconcile current changes hcur hadd hdisj
  · rw [reconcile_eq_items _ _ _ h]
    exact hitems

theorem saveM_plain (st : St) (items : List Rec) (changes : Changes)
    (current : List Rec) (hload : loadM {} st.canonical = .ok (.arr current)) :
    (saveM {} st items changes).1.canonical =
      some (jsonEncode (reconcile current items changes)) ∧
    (saveM {} st items changes).2 = .ok (reconcile current items changes) := by
  obtain ⟨cano, bks⟩ := st
  cases cano <;> simp_all [saveM]

/-- C2: reconciliation during save removes the records whose identity key
appears in `changes.removed`, then replaces remaining records whose key
appears in `changes.modified`, then appends `changes.added` — i.e. the
code's incremental step coincides with the spec's remove/replace/append
algorithm on every input — and on previous `[A,B,C]` with changes
`{added:[D], modified:[B'], removed:[C]}` and matching final items
`[A,B',D]`, both the reconciler and the full save produce `[A,B',D]` in
that order. -/
theorem c2_reconciliation_algorithm :
    (∀ (previous : List Rec) (changes : Changes),
      applyChanges previous changes = specReconcile previous changes) ∧
    reconcile [⟨1, 0⟩, ⟨2, 0⟩, ⟨3, 0⟩] [⟨1, 0⟩, ⟨2, 1⟩, ⟨4, 0⟩]
        ⟨[⟨4, 0⟩], [⟨2, 1⟩], [⟨3, 0⟩]⟩ = [⟨1, 0⟩, ⟨2, 1⟩, ⟨4, 0⟩] ∧
    (saveM {} ⟨some (jsonEncode [⟨1, 0⟩, ⟨2, 0⟩, ⟨3, 0⟩]), []⟩ [⟨1, 0⟩, ⟨2, 1⟩, ⟨4, 0⟩]
        ⟨[⟨4, 0⟩], [⟨2, 1⟩], [⟨3, 0⟩]⟩).2 = .ok [⟨1, 0⟩, ⟨2, 1⟩, ⟨4, 0⟩] :=
  ⟨applyChanges_eq_specReconcile, by rfl, by rfl⟩

/-- C3: whenever the identity-key set of the incrementally reconciled
result differs (in size or membership) from that of the caller-supplied
final items, the save succeeds non-fatally, stores the caller-supplied
items verbatim, and a subsequent load returns exactly them. -/
theorem c3_mismatch_fallback (st : St) (current items : List Rec) (changes : Changes)
    (hload : loadM {} st.canonical = .ok (.arr current))
    (hmm : idFinset items ≠ idFinset (applyChanges current changes)) :
    (saveM {} st items changes).2 = .ok items ∧
    (saveM {} st items changes).1.canonical = some (jsonEncode items) ∧
    loadM {} (saveM {} st items changes).1.canonical = .ok (.arr items) := by
  have hrec := reconcile_eq_items current items changes hmm
  obtain ⟨hc, ho⟩ := saveM_plain st items changes current hload
  rw [hrec] at hc ho
  exact ⟨ho, hc, by rw [hc]; exact loadM_plain_jsonEncode items⟩

theorem c3_mismatch_fallback_witness :
    (saveM {} ⟨none, []⟩ [⟨1, 0⟩] ⟨[], [], []⟩).2 = .ok [⟨1, 0⟩] ∧
    loadM {} (saveM {} ⟨none, []⟩ [⟨1, 0⟩] ⟨[], [], []⟩).1.canonical = .ok (.arr [⟨1, 0⟩]) :=
  ⟨(c3_mismatch_fallback ⟨none, []⟩ [] [⟨1, 0⟩] ⟨[], [], []⟩ rfl (by decide)).1,
   (c3_mismatch_fallback ⟨none, []⟩ [] [⟨1, 0⟩] ⟨[], [], []⟩ rfl (by decide)).2.2⟩

/-- C4: for a collection `S` with unique identity keys,
`save(S, {added: S, modified: [], removed: []})` followed by `load` returns
exactly `S`, in order, starting from any state whose pre-save load yields
the empty collection (the fresh store `register` leaves behind): both
without encryption and with any encrypt capability whose decrypt capability
is its inverse (and produces non-blank ciphertext). -/
theorem c4_round_trip (S : List Rec) (hnodup : (S.map Rec.id).Nodup) :
    (∀ st : St, loadM {} st.canonical = .ok (.arr []) →
      (saveM {} st S ⟨S, [], []⟩).2 = .ok S ∧
      loadM {} (saveM {} st S ⟨S, [], []⟩).1.canonical = .ok (.arr S)) ∧
    (∀ (enc : List Rec → Except String Bytes) (dec : Bytes → Except String JsonVal),
      (∀ l, ∃ b, enc l = .ok b ∧ b ≠ [] ∧ dec b = .ok (.arr l)) →
      ∀ st : St,
        loadM ⟨some enc, some dec, {}⟩ st.canonical = .ok (.arr []) →
        (saveM ⟨some enc, some dec, {}⟩ st S ⟨S, [], []⟩).2 = .ok S ∧
        loadM ⟨some enc, some dec, {}⟩
            (saveM ⟨some enc, some dec, {}⟩ st S ⟨S, [], []⟩).1.canonical = .ok (.arr S)) := by
  constructor
  · intro st hload
    obtain ⟨hc, ho⟩ := saveM_plain st S ⟨S, [], []⟩ [] hload
    rw [reconcile_self] at hc ho
    exact ⟨ho, by rw [hc]; exact loadM_plain_jsonEncode S⟩
  · intro enc dec hinv st hload
    obtain ⟨b, hb, hbne, hdecb⟩ := hinv S
    have hsave : saveM ⟨some enc, some dec, {}⟩ st S ⟨S, [], []⟩ =
        (⟨some b,
          st.backups ++ (match st.canonical with | some bytes => [bytes] | none => [])⟩,
         .ok S) := by
      obtain ⟨cano, bks⟩ := st
      cases cano <;> simp_all [saveM, reconcile_self]
    rw [hsave]
    refine ⟨rfl, ?_⟩
    simp [loadM, hbne, hdecb, defaultDataValidator]

theorem c4_round_trip_witness :
    (saveM {} ⟨none, []⟩ [⟨1, 0⟩] ⟨[⟨1, 0⟩], [], []⟩).2 = .ok [⟨1, 0⟩] ∧
    loadM {} (saveM {} ⟨none, []⟩ [⟨1, 0⟩] ⟨[⟨1, 0⟩], [], []⟩).1.canonical =
      .ok (.arr [⟨1, 0⟩]) :=
  (c4_round_trip [⟨1, 0⟩] (by decide)).1 ⟨none, []⟩ rfl

/-- C5: with a decrypt capability configured and `allowPlaintextFallback`
false, non-empty stored bytes on which the decrypt capability throws make
`load` fail with the decryption-failed error carrying the original cause,
returning no data. -/
theorem c5_tamper_detection (opts : Opts) (dec : Bytes → Except String JsonVal)
    (hdec : opts.decrypt? = some dec)
    (hfb : opts.security.allowPlaintextFallback = false)
    (bytes : Bytes) (hne : bytes ≠ []) (cause : String)
    (hthrow : dec bytes = .error cause) :
    loadM opts (some bytes) = .error (.decryptionFailed cause) := by
  simp [loadM, hne, hdec, hthrow, hfb]

theorem c5_tamper_detection_witness :
    loadM ⟨none, some (fun _ => .error "boom"), {}⟩ (some [7]) =
      .error (.decryptionFailed "boom") :=
  c5_tamper_detection ⟨none, some (fun _ => .error "boom"), {}⟩
    (fun _ => .error "boom") rfl rfl [7] (by decide) "boom" rfl

/-- C6 (as stated) is false: with `validateDecryptedData = true`, a decrypt
capability that succeeds with a non-array value (failing the default data
validator on the primary path), and `allowPlaintextFallback = true`, the
stored bytes `jsonEncode []` make `load` return data (`[]`) via the
plaintext fallback instead of failing. -/
theorem c6_counterexample :
    ((fun _ => (.ok .nonArr : Except String JsonVal)) (jsonEncode []) = .ok .nonArr) ∧
    defaultDataValidator .nonArr = false ∧
    ({ decrypt? := some fun _ => .ok .nonArr,
       security := { allowPlaintextFallback := true } : Opts}).security.validateDecryptedData
        = true ∧
    loadM { decrypt? := some fun _ => .ok .nonArr,
            security := { allowPlaintextFallback := true } } (some (jsonEncode [])) =
      .ok (.arr []) :=
  ⟨rfl, rfl, rfl, rfl⟩

/-- C6 amended: with `validateDecryptedData` true and a decrypt capability
configured, a data-validator failure on the primary decode path is fatal to
`load` exactly when `allowPlaintextFallback` is false, in which case it is
surfaced as a decryption failure (the validation throw lands in the decrypt
`catch`); with the fallback enabled it is handled like a decryption failure
and `load` may return plaintext-fallback data. -/
theorem c6_amended_primary_validation (opts : Opts) (dec : Bytes → Except String JsonVal)
    (hdec : opts.decrypt? = some dec)
    (hfb : opts.security.allowPlaintextFallback = false)
    (hval : opts.security.validateDecryptedData = true)
    (bytes : Bytes) (hne : bytes ≠ []) (v : JsonVal)
    (hok : dec bytes = .ok v) (hbad : opts.security.dataValidator v = false) :
    loadM opts (some bytes) =
      .error (.decryptionFailed
        "Decrypted data failed validation - possible data corruption or tampering") := by
  simp [loadM, hne, hdec, hok, hval, hbad, hfb]

theorem c6_amended_primary_validation_witness :
    loadM ⟨none, some (fun _ => .ok .nonArr), {}⟩ (some [7]) =
      .error (.decryptionFailed
        "Decrypted data failed validation - possible data corruption or tampering") :=
  c6_amended_primary_validation ⟨none, some (fun _ => .ok .nonArr), {}⟩
    (fun _ => .ok .nonArr) rfl rfl rfl [7] (by decide) .nonArr rfl rfl

/-- C7: with no decrypt capability and non-empty stored bytes, a JSON parse
failure makes `load` return the empty collection (not an error), while a
data-validator failure on a successfully parsed value is fatal. -/
theorem c7_plain_parse_degradation (opts : Opts) (hdec : opts.decrypt? = none)
    (bytes : Bytes) (hne : bytes ≠ []) :
    (jsonParseV bytes = none → loadM opts (some bytes) = .ok (.arr [])) ∧
    (∀ v, jsonParseV bytes = some v → opts.security.validateDecryptedData = true →
      opts.security.dataValidator v = false →
      loadM opts (some bytes) = .error .dataValidationFailed) := by
  constructor
  · intro hp
    simp [loadM, hne, hdec, hp]
  · intro v hp hval hbad
    simp [loadM, hne, hdec, hp, hval, hbad]

theorem c7_plain_parse_degradation_witness :
    loadM {} (some [7]) = .ok (.arr []) ∧
    loadM {} (some [123]) = .error .dataValidationFailed :=
  ⟨(c7_plain_parse_degradation {} rfl [7] (by decide)).1 rfl,
   (c7_plain_parse_degradation {} rfl [123] (by decide)).2 .nonArr rfl rfl rfl⟩

/-- C1 (as stated) is false: starting from an empty store, a change-set and
final items containing two records with the same identity key `1` are
saved as-is — the verification passes (the id *sets* agree) and the stored
collection returned by a subsequent load has a duplicated identity key. -/
theorem c1_counterexample :
    (saveM {} ⟨none, []⟩ [⟨1, 0⟩, ⟨1, 1⟩] ⟨[⟨1, 0⟩, ⟨1, 1⟩], [], []⟩).2 =
      .ok [⟨1, 0⟩, ⟨1, 1⟩] ∧
    loadM {} (saveM {} ⟨none, []⟩ [⟨1, 0⟩, ⟨1, 1⟩] ⟨[⟨1, 0⟩, ⟨1, 1⟩], [], []⟩).1.canonical =
      .ok (.arr [⟨1, 0⟩, ⟨1, 1⟩]) ∧
    ¬ (([⟨1, 0⟩, ⟨1, 1⟩] : List Rec).map Rec.id).Nodup :=
  ⟨rfl, rfl, by decide⟩

/-- C1 amended: after a successful save the stored collection (and the one a
subsequent load returns) has pairwise-distinct identity keys, provided the
previously stored collection, the added records and the caller-supplied
final items each have pairwise-distinct keys and no added key collides with
a previously stored key. -/
theorem c1_amended_unique_ids (st : St) (current items : List Rec) (changes : Changes)
    (hload : loadM {} st.canonical = .ok (.arr current))
    (hcur : (current.map Rec.id).Nodup)
    (hitems : (items.map Rec.id).Nodup)
    (hadd : (changes.added.map Rec.id).Nodup)
    (hdisj : ∀ r ∈ current, r.id ∉ changes.added.map Rec.id) :
    (saveM {} st items changes).2 = .ok (reconcile current items changes) ∧
    loadM {} (saveM {} st items changes).1.canonical =
      .ok (.arr (reconcile current items changes)) ∧
    ((reconcile current items changes).map Rec.id).Nodup := by
  obtain ⟨hc, ho⟩ := saveM_plain st items changes current hload
  exact ⟨ho, by rw [hc]; exact loadM_plain_jsonEncode _,
    nodup_ids_reconcile current items changes hcur hitems hadd hdisj⟩

theorem c1_amended_unique_ids_witness :
    (saveM {} ⟨none, []⟩ [⟨1, 0⟩] ⟨[⟨1, 0⟩], [], []⟩).2 =
      .ok (reconcile [] [⟨1, 0⟩] ⟨[⟨1, 0⟩], [], []⟩) ∧
    ((reconcile [] [⟨1, 0⟩] ⟨[⟨1, 0⟩], [], []⟩).map Rec.id).Nodup :=
  ⟨(c1_amended_unique_ids ⟨none, []⟩ [] [⟨1, 0⟩] ⟨[⟨1, 0⟩], [], []⟩ rfl
      (by decide) (by decide) (by decide) (by decide)).1,
   (c1_amended_unique_ids ⟨none, []⟩ [] [⟨1, 0⟩] ⟨[⟨1, 0⟩], [], []⟩ rfl
      (by decide) (by decide) (by decide) (by decide)).2.2⟩

/-- C8: the code under verification creates a backup artifact on every save
whose prior canonical file is readable, with the default configuration
(there is no `createBackups` option in src/types.ts to disable it), and it
never prunes: a second save grows the backup list to two.  This contradicts
the claim that no backup is created by default and that old backups are
pruned beyond `maxBackups`; the backup-retention block at
src/index.ts:356-361 is an empty stub. -/
theorem c8_backup_unconditional :
    (saveM {} ⟨some (jsonEncode []), []⟩ [] ⟨[], [], []⟩).1.backups = [jsonEncode []] ∧
    ((saveM {} (saveM {} ⟨some (jsonEncode []), []⟩ [] ⟨[], [], []⟩).1
        [] ⟨[], [], []⟩).1.backups).length = 2 :=
  ⟨rfl, rfl⟩

/-- C9: adapter construction succeeds exactly on non-empty names free of
the parent-directory marker, path separators, null bytes, CR/LF, and of
length at most 255 (for any options that do not independently trigger
encryption enforcement); every other name is rejected with the
invalid-name error before any I/O — the construction model touches no
filesystem state at all. -/
theorem c9_name_validation (s : List Char) (opts : Opts) :
    (¬ goodName s → createAdapter s opts = .error .invalidName) ∧
    (goodName s →
      opts.security.enforceEncryption = false ∨
        (opts.encrypt?.isSome ∧ opts.decrypt?.isSome) →
      createAdapter s opts = .ok ()) := by
  constructor
  · intro hbad
    rcases validateFilename_cases s with h | h
    · exact absurd ((validateFilename_ok_iff s).1 h) hbad
    · unfold createAdapter
      rw [h]
  · intro hgood hsec
    unfold createAdapter
    rw [(validateFilename_ok_iff s).2 hgood]
    rcases hsec with h | ⟨h1, h2⟩
    · simp [h]
    · cases he : opts.encrypt? <;> cases hd : opts.decrypt? <;> simp_all

theorem c9_name_validation_witness :
    createAdapter ['a'] {} = .ok () ∧
    createAdapter ['.', '.'] {} = .error .invalidName ∧
    createAdapter [] {} = .error .invalidName ∧
    createAdapter ['a', '/', 'b'] {} = .error .invalidName :=
  ⟨(c9_name_validation ['a'] {}).2 (by decide) (Or.inl rfl),
   (c9_name_validation ['.', '.'] {}).1 (by decide),
   (c9_name_validation [] {}).1 (by decide),
   (c9_name_validation ['a', '/', 'b'] {}).1 (by decide)⟩

/-- C10: the data handed to the change-notification callback is a deep copy
of the written collection — its addresses are fresh, disjoint from the live
array's — and the canonical bytes are produced from the live values before
the callback runs; hence for any two callbacks that mutate only the objects
they receive (one mutating, one not), the bytes on disk coincide and a
subsequent load returns the same written collection, with the engine's live
records untouched. -/
theorem c10_callback_isolation (heap : Heap) (live : List Nat) (base : Nat)
    (cb₁ cb₂ : Heap → List Nat → Heap)
    (hfresh : ∀ a ∈ live, a < base)
    (hcb₁ : ∀ h ad a, a ∉ ad → cb₁ h ad a = h a)
    (hcb₂ : ∀ h ad a, a ∉ ad → cb₂ h ad a = h a) :
    (∀ a ∈ (saveNotify heap live base cb₁).2.2, a ∉ live) ∧
    (saveNotify heap live base cb₁).1 = (saveNotify heap live base cb₂).1 ∧
    loadM {} (some (saveNotify heap live base cb₁).1) = .ok (.arr (live.map heap)) ∧
    loadM {} (some (saveNotify heap live base cb₂).1) = .ok (.arr (live.map heap)) ∧
    (∀ a ∈ live, (saveNotify heap live base cb₁).2.1 a = heap a) := by
  have hcopy : ∀ a ∈ deepCopyAddrs base live.length, base ≤ a := by
    intro a ha
    rcases List.mem_map.mp ha with ⟨i, _, rfl⟩
    omega
  refine ⟨?_, rfl, loadM_plain_jsonEncode _, loadM_plain_jsonEncode _, ?_⟩
  · intro a ha hmem
    exact absurd (hfresh a hmem) (by have := hcopy a ha; omega)
  · intro a hmem
    have halow : a < base := hfresh a hmem
    have hnotin : a ∉ deepCopyAddrs base live.length := fun h =>
      absurd halow (by have := hcopy a h; omega)
    show cb₁ (deepCopyHeap heap live base) (deepCopyAddrs base live.length) a = heap a
    rw [hcb₁ _ _ a hnotin]
    unfold deepCopyHeap
    rw [if_neg (by omega)]

theorem c10_callback_isolation_witness :
    (∀ a ∈ (saveNotify (fun _ => ⟨5, 5⟩) [0] 1
        (fun h ad a => if a ∈ ad then ⟨9, 9⟩ else h a)).2.2, a ∉ [0]) ∧
    (saveNotify (fun _ => ⟨5, 5⟩) [0] 1
        (fun h ad a => if a ∈ ad then ⟨9, 9⟩ else h a)).1 =
      (saveNotify (fun _ => ⟨5, 5⟩) [0] 1 (fun h _ => h)).1 ∧
    loadM {} (some (saveNotify (fun _ => ⟨5, 5⟩) [0] 1
        (fun h ad a => if a ∈ ad then ⟨9, 9⟩ else h a)).1) =
      .ok (.arr ([0].map (fun _ => ⟨5, 5⟩))) ∧
    loadM {} (some (saveNotify (fun _ => ⟨5, 5⟩) [0] 1 (fun h _ => h)).1) =
      .ok (.arr ([0].map (fun _ => ⟨5, 5⟩))) ∧
    (∀ a ∈ [0], (saveNotify (fun _ => ⟨5, 5⟩) [0] 1
        (fun h ad a => if a ∈ ad then ⟨9, 9⟩ else h a)).2.1 a = (fun _ => (⟨5, 5⟩ : Rec)) a) :=
  c10_callback_isolation (fun _ => ⟨5, 5⟩) [0] 1
    (fun h ad a => if a ∈ ad then ⟨9, 9⟩ else h a) (fun h _ => h)
    (by decide) (fun _ _ _ hna => if_neg hna) (fun _ _ _ _ => rfl)
